import Mathlib

/-!
Verification of the qBittorrent paywall licensing subsystem
(`src/app/main.cpp`, namespace `Paywall`) against its natural-language
specification.

Modelling conventions:
* `QString` / `QByteArray` values are modelled as `QStr := List Nat`, the
  list of their UTF-8 bytes.  All string constants appearing in the code
  are ASCII, so `QString::toUtf8` / `fromUtf8` / `toLatin1` / `fromLatin1`
  are the identity on the byte lists exercised here and are modelled as
  such.
* `QDateTime` is modelled as `Option DT`: `none` is an invalid datetime,
  `some` carries the calendar components.  Comparisons are lexicographic
  on the components, which agrees with Qt's ordering on valid local
  datetimes; an invalid datetime sorts before every valid one.
* The ambient machine state (network interfaces, the two persisted files,
  the clock, the fresh UUID produced by `QUuid::createUuid`) is an
  explicit `SysState` record; file writes are state transitions, and a
  file that cannot be opened for writing is modelled by the corresponding
  `Writable` flag being `false`.
-/

/-- Byte-string model of `QString` / `QByteArray`: the list of UTF-8 bytes. -/
abbrev QStr : Type := List Nat

/-- Bytes of an ASCII string literal. -/
def qstr (s : String) : QStr := s.toList.map Char.toNat

/-- Qt/PCRE ASCII whitespace class (`\s`): space, tab, LF, VT, FF, CR. -/
def isWs (c : Nat) : Bool := decide (c = 32 ∨ c = 9 ∨ c = 10 ∨ c = 11 ∨ c = 12 ∨ c = 13)

/-- Character class `[a-fA-F0-9\-]` of the paywall marker pattern. -/
def isHexDash (c : Nat) : Bool :=
  decide ((48 ≤ c ∧ c ≤ 57) ∨ (97 ≤ c ∧ c ≤ 102) ∨ (65 ≤ c ∧ c ≤ 70) ∨ c = 45)

/-- Model of `QString::trimmed`: strip leading and trailing whitespace. -/
def trim (s : QStr) : QStr :=
  ((List.dropWhile isWs s).reverse.dropWhile isWs).reverse

/-- Model of `QString::startsWith`. -/
def leadsWith : QStr → QStr → Bool
  | [], _ => true
  | _ :: _, [] => false
  | a :: s, b :: t => a == b && leadsWith s t

/-! ### Base64 (Qt `QByteArray::toBase64` / `fromBase64`, default options) -/

/-- Base64 alphabet: sextet value to ASCII byte. -/
def b64tbl (n : Nat) : Nat :=
  if n < 26 then 65 + n
  else if n < 52 then 97 + (n - 26)
  else if n < 62 then 48 + (n - 52)
  else if n = 62 then 43
  else 47

/-- Base64 alphabet lookup: ASCII byte to sextet value, `none` for any
byte outside the alphabet (such bytes are skipped by Qt's default,
lenient `fromBase64`; this includes the padding byte `=`). -/
def b64val (c : Nat) : Option Nat :=
  if 65 ≤ c ∧ c ≤ 90 then some (c - 65)
  else if 97 ≤ c ∧ c ≤ 122 then some (c - 97 + 26)
  else if 48 ≤ c ∧ c ≤ 57 then some (c - 48 + 52)
  else if c = 43 then some 62
  else if c = 47 then some 63
  else none

/-- Model of `QByteArray::toBase64` (with `=` padding), three input bytes
per four output characters. -/
def b64encode : List Nat → List Nat
  | [] => []
  | [a] => [b64tbl (a / 4), b64tbl (a % 4 * 16), 61, 61]
  | [a, b] => [b64tbl (a / 4), b64tbl (a % 4 * 16 + b / 16), b64tbl (b % 16 * 4), 61]
  | a :: b :: c :: rest =>
      b64tbl (a / 4) :: b64tbl (a % 4 * 16 + b / 16) ::
        b64tbl (b % 16 * 4 + c / 64) :: b64tbl (c % 64) :: b64encode rest

/-- Model of Qt's lenient base64 decoding loop: accumulate six bits per
alphabet character, skip every non-alphabet character, emit a byte each
time eight or more bits are buffered, discard leftover bits at the end.
`buf` holds `nbits` buffered bits. -/
def b64decodeAux : Nat → Nat → List Nat → List Nat
  | _, _, [] => []
  | buf, nbits, c :: rest =>
    match b64val c with
    | none => b64decodeAux buf nbits rest
    | some d =>
      if 8 ≤ nbits + 6 then
        (buf * 64 + d) / 2 ^ (nbits - 2) ::
          b64decodeAux ((buf * 64 + d) % 2 ^ (nbits - 2)) (nbits - 2) rest
      else b64decodeAux (buf * 64 + d) (nbits + 6) rest

/-- Model of `QByteArray::fromBase64` with default (lenient) options. -/
def b64decode (l : List Nat) : List Nat := b64decodeAux 0 0 l

/-! ### XOR codec (`Paywall::xorEncrypt` / `Paywall::xorDecrypt`) -/

/-- The XOR loop shared by `xorEncrypt` and `xorDecrypt`:
`bytes[i] = bytes[i] ^ keyBytes[i % keyBytes.size()]`. -/
def xorBytesAux (key : List Nat) : Nat → List Nat → List Nat
  | _, [] => []
  | i, b :: rest => (b ^^^ key.getD (i % key.length) 0) :: xorBytesAux key (i + 1) rest

/-- Model of `Paywall::xorEncrypt`: XOR with the cyclically repeated key,
then base64; empty key yields the empty string. -/
def xorEncrypt (data key : QStr) : QStr :=
  if key = ([] : QStr) then [] else b64encode (xorBytesAux key 0 data)

/-- Model of `Paywall::xorDecrypt`: base64-decode, then the same XOR;
empty key or empty decoded byte array yields the empty string. -/
def xorDecrypt (data key : QStr) : QStr :=
  let bytes := b64decode data
  if key = ([] : QStr) ∨ bytes = [] then [] else xorBytesAux key 0 bytes

/-- Membership in the base64 alphabet (the characters Qt's lenient
decoder does not skip). -/
def isB64Char (c : Nat) : Bool := (b64val c).isSome

/-! ### Datetimes (`QDateTime`, `Qt::ISODate`) -/

/-- Calendar components of a valid `QDateTime` (local time, second
resolution, which is what `Qt::ISODate` serialization carries). -/
structure DT where
  year : Nat
  month : Nat
  day : Nat
  hour : Nat
  minute : Nat
  second : Nat
  deriving DecidableEq

/-- Lexicographic order on datetime components; agrees with Qt's order
on valid datetimes in one time zone. -/
def dtLE (a b : DT) : Bool :=
  if a.year ≠ b.year then a.year < b.year
  else if a.month ≠ b.month then a.month < b.month
  else if a.day ≠ b.day then a.day < b.day
  else if a.hour ≠ b.hour then a.hour < b.hour
  else if a.minute ≠ b.minute then a.minute < b.minute
  else a.second ≤ b.second

/-- Model of `QDateTime::operator<=`: an invalid datetime (`none`) sorts
before every valid one. -/
def qdtLE : Option DT → Option DT → Bool
  | none, _ => true
  | some _, none => false
  | some a, some b => dtLE a b

/-- Strict version of `qdtLE` (total order, so `a < b` is `¬ b ≤ a`). -/
def qdtLt (a b : Option DT) : Bool := ! qdtLE b a

/-- Gregorian leap year. -/
def isLeap (y : Nat) : Bool := decide ((y % 4 = 0 ∧ y % 100 ≠ 0) ∨ y % 400 = 0)

/-- Days in a month of the Gregorian calendar. -/
def daysInMonth (y m : Nat) : Nat :=
  if m = 2 then (if isLeap y then 29 else 28)
  else if m = 4 ∨ m = 6 ∨ m = 9 ∨ m = 11 then 30
  else 31

/-- Calendar successor day (used by `QDateTime::addDays`). -/
def nextDay (t : DT) : DT :=
  if t.day < daysInMonth t.year t.month then { t with day := t.day + 1 }
  else if t.month < 12 then { t with day := 1, month := t.month + 1 }
  else { t with day := 1, month := 1, year := t.year + 1 }

/-- Model of `QDateTime::addDays` for a non-negative day count; invalid
datetimes stay invalid. -/
def addDays : Nat → Option DT → Option DT
  | _, none => none
  | 0, some t => some t
  | n + 1, some t => addDays n (some (nextDay t))

/-- ASCII decimal digit. -/
def isDigit (c : Nat) : Bool := decide (48 ≤ c ∧ c ≤ 57)

/-- Model of `QDateTime::fromString(s, Qt::ISODate)` restricted to the
exact shape `yyyy-MM-ddTHH:mm:ss` that `QDateTime::toString(Qt::ISODate)`
produces (the only shape this program ever writes); everything else is
conservatively an invalid datetime. -/
def parseISO (s : QStr) : Option DT :=
  match s with
  | [y1, y2, y3, y4, s1, m1, m2, s2, d1, d2, s3, h1, h2, s4, n1, n2, s5, c1, c2] =>
    if isDigit y1 ∧ isDigit y2 ∧ isDigit y3 ∧ isDigit y4 ∧
       isDigit m1 ∧ isDigit m2 ∧ isDigit d1 ∧ isDigit d2 ∧
       isDigit h1 ∧ isDigit h2 ∧ isDigit n1 ∧ isDigit n2 ∧
       isDigit c1 ∧ isDigit c2 ∧
       s1 = 45 ∧ s2 = 45 ∧ s3 = 84 ∧ s4 = 58 ∧ s5 = 58 then
      let y := (y1 - 48) * 1000 + (y2 - 48) * 100 + (y3 - 48) * 10 + (y4 - 48)
      let mo := (m1 - 48) * 10 + (m2 - 48)
      let d := (d1 - 48) * 10 + (d2 - 48)
      let h := (h1 - 48) * 10 + (h2 - 48)
      let mi := (n1 - 48) * 10 + (n2 - 48)
      let sec := (c1 - 48) * 10 + (c2 - 48)
      if 1 ≤ mo ∧ mo ≤ 12 ∧ 1 ≤ d ∧ d ≤ daysInMonth y mo ∧
         h < 24 ∧ mi < 60 ∧ sec < 60 ∧ 1 ≤ y then
        some ⟨y, mo, d, h, mi, sec⟩
      else none
    else none
  | _ => none

/-- Two-digit zero-padded decimal. -/
def pad2 (n : Nat) : QStr := [48 + n / 10 % 10, 48 + n % 10]

/-- Four-digit zero-padded decimal. -/
def pad4 (n : Nat) : QStr := [48 + n / 1000 % 10, 48 + n / 100 % 10, 48 + n / 10 % 10, 48 + n % 10]

/-- Model of `QDateTime::toString(Qt::ISODate)`: `yyyy-MM-ddTHH:mm:ss`
for a valid datetime, the empty string for an invalid one. -/
def dtToISO : Option DT → QStr
  | none => []
  | some t =>
      pad4 t.year ++ [45] ++ pad2 t.month ++ [45] ++ pad2 t.day ++ [84] ++
        pad2 t.hour ++ [58] ++ pad2 t.minute ++ [58] ++ pad2 t.second

/-! ### License record (`LicenseData`) -/

/-- Model of `struct LicenseData`: identity, binding and validity
window.  `QString` members default to empty, `QDateTime` members to
invalid. -/
structure LicenseData where
  email : QStr := []
  mac : QStr := []
  uuid : QStr := []
  issued : Option DT := none
  expires : Option DT := none
  deriving DecidableEq

/-- Model of `LicenseData::isEmpty`: the source checks only
`email.isEmpty()`. -/
def LicenseData.isEmptyRec (l : LicenseData) : Bool := l.email = ([] : QStr)

/-- Default-constructed `LicenseData` (the value every failure path of
`loadLicense` returns). -/
def emptyLicense : LicenseData := {}

/-! ### JSON serialization (`LicenseData::toJsonString` / `fromJsonString`) -/

/-- JSON string escaping as `QJsonDocument` performs it for the byte
range this program stores (quote, backslash, and the common control
characters; other control characters become `\u00XX`). -/
def escChar (c : Nat) : QStr :=
  if c = 34 then [92, 34]
  else if c = 92 then [92, 92]
  else if c = 8 then [92, 98]
  else if c = 9 then [92, 116]
  else if c = 10 then [92, 110]
  else if c = 12 then [92, 102]
  else if c = 13 then [92, 114]
  else if c < 32 then
    [92, 117, 48, 48, 48 + c / 16, if c % 16 < 10 then 48 + c % 16 else 87 + c % 16]
  else [c]

/-- Escape a whole string for JSON output. -/
def escStr (s : QStr) : QStr := s.foldr (fun c acc => escChar c ++ acc) []

/-- One `"key":"value"` member of the flat JSON object. -/
def jsonField (k : String) (v : QStr) : QStr :=
  [34] ++ qstr k ++ [34, 58, 34] ++ escStr v ++ [34]

/-- Model of `LicenseData::toJsonString`: the compact serialization of
the flat object with keys `email`, `mac`, `uuid`, `issued`, `expires`
(emitted in `QJsonObject`'s sorted key order) and ISO-8601 timestamps.
`123` and `125` are the object braces. -/
def toJsonString (lic : LicenseData) : QStr :=
  [123] ++ jsonField "email" lic.email ++ [44] ++
    jsonField "expires" (dtToISO lic.expires) ++ [44] ++
    jsonField "issued" (dtToISO lic.issued) ++ [44] ++
    jsonField "mac" lic.mac ++ [44] ++
    jsonField "uuid" lic.uuid ++ [125]

/-- Unescape one escaped character of a JSON string literal. -/
def escDecode (e : Nat) : Option Nat :=
  if e = 34 then some 34
  else if e = 92 then some 92
  else if e = 47 then some 47
  else if e = 98 then some 8
  else if e = 116 then some 9
  else if e = 110 then some 10
  else if e = 102 then some 12
  else if e = 114 then some 13
  else none

/-- Parse the remainder of a JSON string literal (the opening quote is
already consumed); returns the decoded content and the rest of the
input.  `fuel` bounds the recursion by the input length. -/
def parseStrLit : Nat → List Nat → Option (QStr × List Nat)
  | 0, _ => none
  | _ + 1, [] => none
  | fuel + 1, c :: rest =>
    if c = 34 then some ([], rest)
    else if c = 92 then
      match rest with
      | [] => none
      | e :: rest2 =>
        match escDecode e with
        | none => none
        | some d =>
          match parseStrLit fuel rest2 with
          | none => none
          | some (s, r) => some (d :: s, r)
    else
      match parseStrLit fuel rest with
      | none => none
      | some (s, r) => some (c :: s, r)

/-- Parse the `"key":"value"` members of a compact flat JSON object,
ending at the closing brace (byte `125`) at the end of input. -/
def parsePairs : Nat → List Nat → Option (List (QStr × QStr))
  | 0, _ => none
  | fuel + 1, l =>
    match l with
    | 34 :: rest =>
      match parseStrLit fuel rest with
      | some (k, 58 :: 34 :: rest2) =>
        match parseStrLit fuel rest2 with
        | some (v, rest3) =>
          match rest3 with
          | 44 :: rest4 =>
            match parsePairs fuel rest4 with
            | some ps => some ((k, v) :: ps)
            | none => none
          | [125] => some [(k, v)]
          | _ => none
        | none => none
      | _ => none
    | _ => none

/-- Model of `QJsonDocument::fromJson` restricted to compact flat objects
with string values — the exact shape `toJsonString` emits.  Inputs
outside this shape are conservatively treated as "not an object", which
is how `fromJsonString` treats every parse failure. -/
def parseJsonObj (s : QStr) : Option (List (QStr × QStr)) :=
  match s with
  | [123, 125] => some []
  | 123 :: rest => parsePairs s.length rest
  | _ => none

/-- First value bound to a key in the parsed object, empty if absent
(`QJsonObject::value(...).toString()` yields an empty string for a
missing key). -/
def jlookup (k : QStr) : List (QStr × QStr) → QStr
  | [] => []
  | (k2, v) :: rest => if k2 = k then v else jlookup k rest

/-- Model of `LicenseData::fromJsonString`: on any parse failure the
default (empty) record is returned; otherwise the five fields are read
back, the timestamps through `Qt::ISODate` parsing. -/
def fromJsonString (j : QStr) : LicenseData :=
  match parseJsonObj j with
  | none => emptyLicense
  | some ps =>
    { email := jlookup (qstr "email") ps
      mac := jlookup (qstr "mac") ps
      uuid := jlookup (qstr "uuid") ps
      issued := parseISO (jlookup (qstr "issued") ps)
      expires := parseISO (jlookup (qstr "expires") ps) }

/-! ### Machine state and fingerprinting -/

/-- Model of one `QNetworkInterface`: its reported hardware address and
whether its flags include `IsLoopBack`. -/
structure NetIf where
  hardwareAddress : QStr
  isLoopBack : Bool
  deriving DecidableEq

/-- Ambient state: the interface list, the contents of the two persisted
files (`none` = absent or unreadable), whether each file can be opened
for writing, the current clock, and the next value `QUuid::createUuid`
would produce. -/
structure SysState where
  interfaces : List NetIf
  blobFile : Option QStr
  anchorFile : Option QStr
  blobWritable : Bool
  anchorWritable : Bool
  now : Option DT
  freshUuid : QStr
  deriving DecidableEq

/-- The all-zero hardware address that `getFirstMacAddress` skips. -/
def zeroMac : QStr := qstr "00:00:00:00:00:00"

/-- Scan of the interface list performed by `Paywall::getFirstMacAddress`:
skip loopback interfaces, return the first hardware address that is
non-empty and not all-zero. -/
def firstMacAux : List NetIf → QStr
  | [] => []
  | i :: rest =>
    if ¬i.isLoopBack ∧ i.hardwareAddress ≠ ([] : QStr) ∧ i.hardwareAddress ≠ zeroMac then
      i.hardwareAddress
    else firstMacAux rest

/-- Model of `Paywall::getFirstMacAddress`. -/
def getFirstMacAddress (st : SysState) : QStr := firstMacAux st.interfaces

/-- Model of `Paywall::systemHasMacAddress`: empty target is rejected
up front; otherwise every interface (loopback included) is compared for
exact string equality. -/
def systemHasMacAddress (st : SysState) (targetMac : QStr) : Bool :=
  if targetMac = ([] : QStr) then false
  else st.interfaces.any (fun i => i.hardwareAddress = targetMac)

/-- Model of `Paywall::generateKeyFromMac`. -/
def generateKeyFromMac (mac : QStr) : QStr := mac ++ qstr "|QBIT_PAYWALL_SALT_2024|"

/-- Model of `Paywall::loadLicense`: read the blob, bail out (returning
the empty record) on an absent or empty file, an absent current hardware
id, or an empty decryption; otherwise decode with the key derived from
the *current* machine's first hardware address and parse. -/
def loadLicense (st : SysState) : LicenseData :=
  match st.blobFile with
  | none => emptyLicense
  | some enc =>
    if enc = ([] : QStr) then emptyLicense
    else
      let currentMac := getFirstMacAddress st
      if currentMac = ([] : QStr) then emptyLicense
      else
        let decrypted := xorDecrypt enc (generateKeyFromMac currentMac)
        if decrypted = ([] : QStr) then emptyLicense
        else fromJsonString decrypted

/-! ### The anchor file and its marker pattern -/

/-- The literal part of the marker pattern `# PAYWALL_UUID: `. -/
def markerLit : QStr := qstr "# PAYWALL_UUID: "

/-- Whether the regular expression `# PAYWALL_UUID: [a-fA-F0-9\-]+`
matches at the start of `l` (the literal followed by at least one
character of the class). -/
def matchAt (l : QStr) : Bool :=
  leadsWith markerLit l &&
    (match l.drop 16 with
     | c :: _ => isHexDash c
     | [] => false)

/-- Leftmost match of `# PAYWALL_UUID: ([a-fA-F0-9\-]+)` in the text,
returning the (greedy) first captured group, as
`QRegularExpression::match` does for `loadUuidFromConfig`. -/
def findMarker : QStr → Option QStr
  | [] => none
  | l@(_ :: rest) =>
    if matchAt l then some ((l.drop 16).takeWhile isHexDash)
    else findMarker rest

/-- Whether the marker pattern matches anywhere in the text. -/
def hasMatch : QStr → Bool
  | [] => false
  | l@(_ :: rest) => matchAt l || hasMatch rest

/-- Model of `QString::remove(QRegularExpression)` for the save-side
pattern `# PAYWALL_UUID: [a-fA-F0-9\-]+\s*`: one left-to-right pass over
the original text, removing each non-overlapping match — the literal,
the greedy run of id characters, and the greedy run of trailing
whitespace.  `fuel` bounds the recursion by the input length. -/
def removeMarkersF : Nat → QStr → QStr
  | 0, l => l
  | _ + 1, [] => []
  | fuel + 1, l@(c :: rest) =>
    if matchAt l then
      removeMarkersF fuel (((l.drop 16).dropWhile isHexDash).dropWhile isWs)
    else c :: removeMarkersF fuel rest

/-- Single removal pass over a whole text. -/
def removeMarkers (l : QStr) : QStr := removeMarkersF l.length l

/-- The fresh marker line `# PAYWALL_UUID: <uuid>\n` that
`saveUuidToConfig` builds. -/
def markerLine (uuid : QStr) : QStr := markerLit ++ uuid ++ [10]

/-- Model of `Paywall::loadUuidFromConfig`: absent file or absent match
yields the empty string; a captured group is trimmed and returned only
when it contains a dash and is exactly 36 characters long, otherwise the
empty string is returned. -/
def loadUuidFromConfig (st : SysState) : QStr :=
  match st.anchorFile with
  | none => []
  | some content =>
    match findMarker content with
    | none => []
    | some cap =>
      let uuid := trim cap
      if (45 : Nat) ∈ uuid ∧ uuid.length = 36 then uuid else []

/-- Model of `Paywall::saveUuidToConfig`: reject an empty uuid; fold the
create/open failure paths into the `anchorWritable` flag; otherwise read
the current content (an absent file is created empty), strip every match
of the marker pattern, prepend the fresh marker line unless it is already
the prefix, and write the result back. -/
def saveUuidToConfig (st : SysState) (uuid : QStr) : Bool × SysState :=
  if uuid = ([] : QStr) then (false, st)
  else if ¬st.anchorWritable then (false, st)
  else
    (true,
      { st with
          anchorFile := some
            (if leadsWith (markerLine uuid) (removeMarkers (st.anchorFile.getD [])) then
              removeMarkers (st.anchorFile.getD [])
            else markerLine uuid ++ removeMarkers (st.anchorFile.getD [])) })

/-- Model of `Paywall::saveLicense`: reject an empty record; encrypt the
JSON serialization with the key derived from the *record's* hardware id;
reject an empty encryption; fail before touching anything if the blob
file cannot be opened; otherwise write the blob and then write the
anchor, returning the anchor write's result. -/
def saveLicense (st : SysState) (lic : LicenseData) : Bool × SysState :=
  if lic.isEmptyRec then (false, st)
  else if xorEncrypt (toJsonString lic) (generateKeyFromMac lic.mac) = ([] : QStr) then
    (false, st)
  else if ¬st.blobWritable then (false, st)
  else
    saveUuidToConfig
      { st with blobFile := some (xorEncrypt (toJsonString lic) (generateKeyFromMac lic.mac)) }
      lic.uuid

/-- Model of `Paywall::activateNewLicense`: resolve the current hardware
id (fail if absent), generate a fresh activation id (fail if empty),
build the record with the trimmed email, `issued = now`,
`expires = issued + 30 days`, and persist it via `saveLicense`. -/
def activateNewLicense (st : SysState) (email : QStr) : Bool × SysState :=
  if getFirstMacAddress st = ([] : QStr) then (false, st)
  else if st.freshUuid = ([] : QStr) then (false, st)
  else
    saveLicense st
      { email := trim email
        mac := getFirstMacAddress st
        uuid := st.freshUuid
        issued := st.now
        expires := addDays 30 st.now }

/-- Model of `Paywall::isLicenseExpired`: `expires <= now`. -/
def isLicenseExpired (st : SysState) (expires : Option DT) : Bool :=
  qdtLE expires st.now

/-- Model of `Paywall::hasValidLicense`: load and check emptiness, then
the hardware binding, then the anchor binding, then expiry, in that
order, failing closed. -/
def hasValidLicense (st : SysState) : Bool :=
  if (loadLicense st).isEmptyRec then false
  else if ¬systemHasMacAddress st (loadLicense st).mac then false
  else if loadUuidFromConfig st = ([] : QStr) ∨
      loadUuidFromConfig st ≠ (loadLicense st).uuid then false
  else if isLicenseExpired st (loadLicense st).expires then false
  else true

/-! ### Marker-line counting -/

/-- Marker lines of a text: split on newlines, count the lines in which
the marker pattern matches. -/
def splitNl : QStr → List QStr
  | [] => [[]]
  | c :: r =>
    if c = 10 then [] :: splitNl r
    else
      match splitNl r with
      | [] => [[c]]
      | h :: t => (c :: h) :: t

/-- Number of lines of the text in which the marker pattern matches. -/
def countMarkerLines (s : QStr) : Nat :=
  ((splitNl s).filter (fun l => (findMarker l).isSome)).length

/-! ### Concrete states used by witnesses and counterexamples -/

/-- A 36-character activation id in canonical UUID form. -/
def uuidA : QStr := qstr "11111111-1111-1111-1111-111111111111"

/-- A second 36-character activation id. -/
def uuidB : QStr := qstr "22222222-2222-2222-2222-222222222222"

/-- A well-formed hardware address. -/
def macA : QStr := qstr "AA:BB:CC:DD:EE:FF"

/-- A fully consistent license record bound to `macA`. -/
def goodLic : LicenseData :=
  { email := qstr "a@example.com", mac := macA, uuid := uuidA
    issued := some ⟨2025, 1, 2, 3, 4, 5⟩, expires := some ⟨2099, 1, 2, 3, 4, 5⟩ }

/-- A machine state on which `goodLic` validates: the interface reports
`macA`, the blob is the encryption of the record under the key derived
from `macA`, and the anchor file carries the record's activation id. -/
def goodSt : SysState :=
  { interfaces := [⟨macA, false⟩]
    blobFile := some (xorEncrypt (toJsonString goodLic) (generateKeyFromMac macA))
    anchorFile := some (markerLine uuidA ++ qstr "project(test)")
    blobWritable := true, anchorWritable := true
    now := some ⟨2025, 6, 1, 0, 0, 0⟩
    freshUuid := uuidB }

/-- A record with a non-empty email but an *empty* hardware id. -/
def noMacLic : LicenseData :=
  { email := qstr "a@example.com", mac := [], uuid := uuidA
    issued := some ⟨2025, 1, 2, 3, 4, 5⟩, expires := some ⟨2099, 1, 2, 3, 4, 5⟩ }

/-- A machine state whose second interface reports an empty hardware
address, with `noMacLic` persisted consistently: the blob decodes (under
the key derived from the first interface's address), the anchor matches,
and the record is unexpired. -/
def noMacSt : SysState :=
  { interfaces := [⟨macA, false⟩, ⟨[], false⟩]
    blobFile := some (xorEncrypt (toJsonString noMacLic) (generateKeyFromMac macA))
    anchorFile := some (markerLine uuidA)
    blobWritable := true, anchorWritable := true
    now := some ⟨2025, 6, 1, 0, 0, 0⟩
    freshUuid := uuidB }

/-- A record with a non-empty email but unset binding fields. -/
def onlyEmailLic : LicenseData := { email := qstr "user@example.com" }

/-- An anchor file whose marker's captured group (`abc`) is not
36 characters long. -/
def shortIdSt : SysState :=
  { interfaces := [], blobFile := none
    anchorFile := some (markerLit ++ qstr "abc" ++ [10])
    blobWritable := true, anchorWritable := true, now := none, freshUuid := [] }

/-- An anchor file whose marker line is followed by a blank line: the
pattern's trailing `\s*` also swallows the blank line. -/
def blankLineSt : SysState :=
  { interfaces := [], blobFile := none
    anchorFile := some (markerLit ++ qstr "ab" ++ [10, 10] ++ qstr "rest")
    blobWritable := true, anchorWritable := true, now := none, freshUuid := [] }

/-- An anchor file crafted so that removing a marker match reassembles a
new marker from the surrounding fragments. -/
def fragmentSt : SysState :=
  { interfaces := [], blobFile := none
    anchorFile := some (qstr "# PAYWALL_# PAYWALL_# PAYWALL_UUID: a\nUUID: b\nUUID: c\n")
    blobWritable := true, anchorWritable := true, now := none, freshUuid := [] }

/-- A machine with no usable interface but with blob and anchor files
present. -/
def noIfaceSt : SysState :=
  { interfaces := [⟨[], false⟩, ⟨macA, true⟩]
    blobFile := some (qstr "junk"), anchorFile := some (markerLine uuidA)
    blobWritable := true, anchorWritable := true
    now := some ⟨2025, 6, 1, 0, 0, 0⟩, freshUuid := uuidB }

/-- A state with a healthy interface but an unwritable blob file. -/
def blobLockedSt : SysState :=
  { interfaces := [⟨macA, false⟩]
    blobFile := none, anchorFile := some (qstr "keep me")
    blobWritable := false, anchorWritable := true
    now := some ⟨2025, 6, 1, 0, 0, 0⟩, freshUuid := uuidA }

/-- A benign anchor content with no marker anywhere. -/
def plainAnchorSt : SysState :=
  { interfaces := [], blobFile := none
    anchorFile := some (qstr "project(test)\nadd_subdirectory(x)\n")
    blobWritable := true, anchorWritable := true, now := none, freshUuid := [] }

/-! ### Supporting lemmas for the codec -/

theorem b64val_b64tbl : ∀ n < 64, b64val (b64tbl n) = some n := by decide

theorem b64decodeAux_chunk (a b c : Nat) (ha : a < 256) (hb : b < 256) (hc : c < 256)
    (rest : List Nat) :
    b64decodeAux 0 0 (b64tbl (a / 4) :: b64tbl (a % 4 * 16 + b / 16) ::
      b64tbl (b % 16 * 4 + c / 64) :: b64tbl (c % 64) :: rest) =
      a :: b :: c :: b64decodeAux 0 0 rest := by
  have h1 : b64val (b64tbl (a / 4)) = some (a / 4) := b64val_b64tbl _ (by omega)
  have h2 : b64val (b64tbl (a % 4 * 16 + b / 16)) = some (a % 4 * 16 + b / 16) :=
    b64val_b64tbl _ (by omega)
  have h3 : b64val (b64tbl (b % 16 * 4 + c / 64)) = some (b % 16 * 4 + c / 64) :=
    b64val_b64tbl _ (by omega)
  have h4 : b64val (b64tbl (c % 64)) = some (c % 64) := b64val_b64tbl _ (by omega)
  simp only [b64decodeAux, h1, h2, h3, h4]
  norm_num
  refine ⟨by omega, by omega, ?_, ?_⟩
  · omega
  · congr 1
    all_goals omega

theorem b64_roundtrip : ∀ l : List Nat, (∀ x ∈ l, x < 256) →
    b64decode (b64encode l) = l
  | [], _ => rfl
  | [a], h => by
    have ha : a < 256 := h a (by simp)
    have h1 : b64val (b64tbl (a / 4)) = some (a / 4) := b64val_b64tbl _ (by omega)
    have h2 : b64val (b64tbl (a % 4 * 16)) = some (a % 4 * 16) := b64val_b64tbl _ (by omega)
    have h61 : b64val 61 = none := rfl
    simp only [b64decode, b64encode, b64decodeAux, h1, h2, h61]
    norm_num
    omega
  | [a, b], h => by
    have ha : a < 256 := h a (by simp)
    have hb : b < 256 := h b (by simp)
    have h1 : b64val (b64tbl (a / 4)) = some (a / 4) := b64val_b64tbl _ (by omega)
    have h2 : b64val (b64tbl (a % 4 * 16 + b / 16)) = some (a % 4 * 16 + b / 16) :=
      b64val_b64tbl _ (by omega)
    have h3 : b64val (b64tbl (b % 16 * 4)) = some (b % 16 * 4) := b64val_b64tbl _ (by omega)
    have h61 : b64val 61 = none := rfl
    simp only [b64decode, b64encode, b64decodeAux, h1, h2, h3, h61]
    norm_num
    refine ⟨by omega, ?_⟩
    omega
  | a :: b :: c :: rest, h => by
    have ha : a < 256 := h a (by simp)
    have hb : b < 256 := h b (by simp)
    have hc : c < 256 := h c (by simp)
    have ih := b64_roundtrip rest (fun x hx => h x (by simp [hx]))
    simp only [b64decode] at ih ⊢
    simp only [b64encode]
    rw [b64decodeAux_chunk a b c ha hb hc, ih]

theorem xorBytesAux_length (key : List Nat) : ∀ (i : Nat) (l : List Nat),
    (xorBytesAux key i l).length = l.length
  | _, [] => rfl
  | i, _ :: rest => by simp [xorBytesAux, xorBytesAux_length key (i + 1) rest]

theorem xorBytesAux_lt (key : List Nat) (hk : ∀ x ∈ key, x < 256) :
    ∀ (i : Nat) (l : List Nat), (∀ x ∈ l, x < 256) →
      ∀ x ∈ xorBytesAux key i l, x < 256
  | _, [], _ => by simp [xorBytesAux]
  | i, b :: rest, h => by
    simp only [xorBytesAux, List.mem_cons, forall_eq_or_imp]
    constructor
    · have hb : b < 256 := h b (by simp)
      have hkey : key.getD (i % key.length) 0 < 256 := by
        rcases Nat.lt_or_ge (i % key.length) key.length with hlt | hge
        · rw [List.getD_eq_getElem _ _ hlt]
          exact hk _ (List.getElem_mem hlt)
        · rw [List.getD_eq_default _ _ hge]
          omega
      calc b ^^^ key.getD (i % key.length) 0 < 2 ^ 8 :=
            Nat.xor_lt_two_pow (by omega) (by omega)
        _ = 256 := by norm_num
    · exact xorBytesAux_lt key hk (i + 1) rest (fun x hx => h x (by simp [hx]))

theorem xorBytesAux_invol (key : List Nat) : ∀ (i : Nat) (l : List Nat),
    xorBytesAux key i (xorBytesAux key i l) = l
  | _, [] => rfl
  | i, b :: rest => by
    simp only [xorBytesAux, Nat.xor_assoc, Nat.xor_self, Nat.xor_zero]
    rw [xorBytesAux_invol key (i + 1) rest]

/-- C3: round-trip of the obfuscation codec.  For every non-empty
plaintext `p` and non-empty key `k` (both given as their UTF-8 byte
lists, whose bytes are below 256), `xorDecrypt (xorEncrypt p k) k = p`. -/
theorem xor_roundtrip (p k : QStr) (hp : p ≠ []) (hk : k ≠ [])
    (hpb : ∀ x ∈ p, x < 256) (hkb : ∀ x ∈ k, x < 256) :
    xorDecrypt (xorEncrypt p k) k = p := by
  unfold xorEncrypt xorDecrypt
  rw [if_neg hk]
  have hx : ∀ x ∈ xorBytesAux k 0 p, x < 256 := xorBytesAux_lt k hkb 0 p hpb
  rw [b64_roundtrip _ hx]
  have hne : xorBytesAux k 0 p ≠ [] := by
    intro h
    apply hp
    have := xorBytesAux_length k 0 p
    rw [h] at this
    exact List.length_eq_zero.mp this.symm
  rw [if_neg (by simp [hk, hne])]
  exact xorBytesAux_invol k 0 p

theorem xor_roundtrip_witness :
    qstr "hi" ≠ [] ∧ qstr "k" ≠ [] ∧
      xorDecrypt (xorEncrypt (qstr "hi") (qstr "k")) (qstr "k") = qstr "hi" :=
  ⟨by decide, by decide,
    xor_roundtrip (qstr "hi") (qstr "k") (by decide) (by decide) (by decide) (by decide)⟩

theorem b64decodeAux_filter : ∀ (buf nbits : Nat) (l : List Nat),
    b64decodeAux buf nbits (l.filter isB64Char) = b64decodeAux buf nbits l
  | _, _, [] => rfl
  | buf, nbits, c :: rest => by
    rcases h : b64val c with _ | d
    · have hf : isB64Char c = false := by simp [isB64Char, h]
      rw [List.filter_cons_of_neg (by simp [hf])]
      rw [b64decodeAux_filter buf nbits rest]
      simp [b64decodeAux, h]
    · have hf : isB64Char c = true := by simp [isB64Char, h]
      rw [List.filter_cons_of_pos (by simp [hf])]
      simp only [b64decodeAux, h]
      split
      · rw [b64decodeAux_filter]
      · rw [b64decodeAux_filter]

/-- C4 (amended): the codec functions are total; both return the empty
string on an empty key; the decoder does not reject malformed input but
decodes it leniently, skipping every character outside the base64
alphabet (so a malformed input generally yields non-empty garbage, not
an empty result). -/
theorem codec_empty_key_and_lenient (p d k : QStr) :
    xorEncrypt p [] = [] ∧ xorDecrypt d [] = [] ∧
      xorDecrypt d k = xorDecrypt (d.filter isB64Char) k := by
  refine ⟨by simp [xorEncrypt], by simp [xorDecrypt], ?_⟩
  unfold xorDecrypt
  simp only [b64decode, b64decodeAux_filter]

/-- C4 (counterexample): `"AB"` is not well-formed base64 (its length is
not a multiple of four and it has no padding), yet `xorDecrypt` returns a
non-empty result for it instead of the empty string: Qt's default
`fromBase64` is lenient. -/
theorem xorDecrypt_malformed_nonempty :
    (qstr "AB").length % 4 ≠ 0 ∧ xorDecrypt (qstr "AB") (qstr "k") ≠ [] := by decide

/-! ### Helper lemmas about the marker machinery -/

theorem leadsWith_refl_append : ∀ a b : QStr, leadsWith a (a ++ b) = true
  | [], _ => rfl
  | x :: a, b => by simp [leadsWith, leadsWith_refl_append a b]

theorem leadsWith_ex : ∀ a b : QStr, leadsWith a b = true → ∃ t, b = a ++ t
  | [], b, _ => ⟨b, rfl⟩
  | x :: a, [], h => by simp [leadsWith] at h
  | x :: a, y :: b, h => by
    simp only [leadsWith, Bool.and_eq_true, beq_iff_eq] at h
    obtain ⟨t, ht⟩ := leadsWith_ex a b h.2
    exact ⟨t, by simp [h.1, ht]⟩

theorem isHexDash_ne_nl {c : Nat} (h : isHexDash c = true) : c ≠ 10 := by
  simp only [isHexDash, decide_eq_true_eq] at h
  omega

theorem isHexDash_not_ws {c : Nat} (h : isHexDash c = true) : isWs c = false := by
  simp only [isHexDash, decide_eq_true_eq] at h
  simp only [isWs, decide_eq_false_iff_not]
  omega

theorem dropWhile_eq_self_of_not {p : Nat → Bool} :
    ∀ s : QStr, (∀ x ∈ s, p x = false) → s.dropWhile p = s
  | [], _ => rfl
  | c :: r, h => by simp [List.dropWhile, h c (by simp)]

theorem trim_eq_self_of_not_ws (s : QStr) (h : ∀ x ∈ s, isWs x = false) : trim s = s := by
  unfold trim
  rw [dropWhile_eq_self_of_not s h,
    dropWhile_eq_self_of_not s.reverse (fun x hx => h x (List.mem_reverse.mp hx)),
    List.reverse_reverse]

theorem dropWhile_append_stop {p : Nat → Bool} :
    ∀ (u : QStr) (c : Nat) (r : QStr), (∀ x ∈ u, p x = true) → p c = false →
      (u ++ c :: r).dropWhile p = c :: r
  | [], c, r, _, hc => by simp [List.dropWhile, hc]
  | x :: u, c, r, h, hc => by
    simp only [List.cons_append, List.dropWhile, h x (by simp)]
    exact dropWhile_append_stop u c r (fun y hy => h y (by simp [hy])) hc

theorem takeWhile_append_stop {p : Nat → Bool} :
    ∀ (u : QStr) (c : Nat) (r : QStr), (∀ x ∈ u, p x = true) → p c = false →
      (u ++ c :: r).takeWhile p = u
  | [], c, r, _, hc => by simp [List.takeWhile, hc]
  | x :: u, c, r, h, hc => by
    simp only [List.cons_append, List.takeWhile, h x (by simp)]
    have := takeWhile_append_stop u c r (fun y hy => h y (by simp [hy])) hc
    simp only [List.append_eq] at this ⊢
    rw [this]

theorem markerLit_eq : markerLit = 35 :: qstr " PAYWALL_UUID: " := by decide

theorem markerLit_length : markerLit.length = 16 := by decide

theorem drop16_markerLit_append (v : QStr) : (markerLit ++ v).drop 16 = v := by
  rw [← markerLit_length, List.drop_left]

theorem matchAt_markerLit_append (v : QStr)
    (hv : match v with | c :: _ => isHexDash c = true | [] => False) :
    matchAt (markerLit ++ v) = true := by
  unfold matchAt
  rw [leadsWith_refl_append, drop16_markerLit_append]
  rcases v with _ | ⟨c, w⟩
  · exact absurd hv (by simp)
  · simpa using hv

theorem matchAt_extend (s b : QStr) (h : matchAt s = true) : matchAt (s ++ b) = true := by
  unfold matchAt at h
  rw [Bool.and_eq_true] at h
  obtain ⟨t, rfl⟩ := leadsWith_ex _ _ h.1
  rw [drop16_markerLit_append] at h
  rw [List.append_assoc]
  apply matchAt_markerLit_append
  rcases t with _ | ⟨c, w⟩
  · exact absurd h.2 (by simp)
  · simpa using h.2

theorem hasMatch_of_matchAt : ∀ l : QStr, matchAt l = true → hasMatch l = true
  | [], h => by
    rw [matchAt, markerLit_eq] at h
    simp [leadsWith] at h
  | c :: r, h => by simp [hasMatch, h]

theorem findMarker_of_matchAt : ∀ l : QStr, matchAt l = true →
    findMarker l = some ((l.drop 16).takeWhile isHexDash)
  | [], h => by
    rw [matchAt, markerLit_eq] at h
    simp [leadsWith] at h
  | c :: r, h => by simp [findMarker, h]

theorem hasMatch_append_left : ∀ a b : QStr, hasMatch a = true → hasMatch (a ++ b) = true
  | [], _, h => by simp [hasMatch] at h
  | c :: r, b, h => by
    simp only [hasMatch, Bool.or_eq_true] at h
    rcases h with h | h
    · exact hasMatch_of_matchAt _ (matchAt_extend _ b h)
    · simp only [List.cons_append, hasMatch, Bool.or_eq_true]
      exact Or.inr (hasMatch_append_left r b h)

theorem hasMatch_append_right : ∀ a b : QStr, hasMatch b = true → hasMatch (a ++ b) = true
  | [], _, h => h
  | c :: r, b, h => by
    simp only [List.cons_append, hasMatch, Bool.or_eq_true]
    exact Or.inr (hasMatch_append_right r b h)

theorem hasMatch_tail {c : Nat} {r : QStr} (h : hasMatch (c :: r) = false) :
    matchAt (c :: r) = false ∧ hasMatch r = false := by
  simp only [hasMatch, Bool.or_eq_false_iff] at h
  exact h

theorem hasMatch_dropWhile {p : Nat → Bool} :
    ∀ l : QStr, hasMatch l = false → hasMatch (l.dropWhile p) = false
  | [], h => h
  | c :: r, h => by
    obtain ⟨h1, h2⟩ := hasMatch_tail h
    by_cases hp : p c
    · rw [List.dropWhile_cons_of_pos hp]
      exact hasMatch_dropWhile r h2
    · rwa [List.dropWhile_cons_of_neg hp]

theorem removeMarkersF_id : ∀ (fuel : Nat) (l : QStr), hasMatch l = false →
    removeMarkersF fuel l = l
  | 0, l, _ => rfl
  | _ + 1, [], _ => rfl
  | fuel + 1, c :: r, h => by
    obtain ⟨h1, h2⟩ := hasMatch_tail h
    simp only [removeMarkersF, h1, Bool.false_eq_true, if_false]
    rw [removeMarkersF_id fuel r h2]

theorem removeMarkers_id (l : QStr) (h : hasMatch l = false) : removeMarkers l = l :=
  removeMarkersF_id _ l h

theorem leadsWith_markerLine_of_noMatch (u w : QStr) (hu : u ≠ [])
    (hhex : ∀ x ∈ u, isHexDash x = true) (hw : hasMatch w = false) :
    leadsWith (markerLine u) w = false := by
  by_contra h
  rw [Bool.not_eq_false] at h
  obtain ⟨t, rfl⟩ := leadsWith_ex _ _ h
  rcases u with _ | ⟨x, u'⟩
  · exact hu rfl
  · have : matchAt (markerLine (x :: u') ++ t) = true := by
      rw [markerLine, List.append_assoc, List.append_assoc]
      exact matchAt_markerLit_append _ (by simpa using hhex x (by simp))
    rw [hasMatch_of_matchAt _ this] at hw
    exact absurd hw (by simp)

theorem removeMarkersF_markerLine : ∀ (fuel : Nat) (u r : QStr), u ≠ [] →
    (∀ x ∈ u, isHexDash x = true) → hasMatch r = false → 1 ≤ fuel →
    removeMarkersF fuel (markerLine u ++ r) = r.dropWhile isWs
  | 0, _, _, _, _, _, hf => by omega
  | fuel + 1, u, r, hu, hhex, hr, _ => by
    rcases u with _ | ⟨x, u'⟩
    · exact absurd rfl hu
    have hxd : isHexDash x = true := hhex x (by simp)
    have hshape : markerLine (x :: u') ++ r =
        35 :: (qstr " PAYWALL_UUID: " ++ ((x :: u') ++ 10 :: r)) := by
      rw [markerLine, markerLit_eq]
      simp
    have hmatch : matchAt (markerLine (x :: u') ++ r) = true := by
      rw [markerLine, List.append_assoc, List.append_assoc]
      exact matchAt_markerLit_append _ (by simpa using hxd)
    rw [hshape] at hmatch ⊢
    simp only [removeMarkersF, hmatch, if_true]
    have hdrop : (35 :: (qstr " PAYWALL_UUID: " ++ ((x :: u') ++ 10 :: r))).drop 16 =
        (x :: u') ++ 10 :: r := by
      have : 35 :: (qstr " PAYWALL_UUID: " ++ ((x :: u') ++ 10 :: r)) =
          markerLit ++ ((x :: u') ++ 10 :: r) := by
        rw [markerLit_eq]
        simp
      rw [this, drop16_markerLit_append]
    rw [hdrop, dropWhile_append_stop (x :: u') 10 r hhex (by decide)]
    have h10 : isWs 10 = true := by decide
    rw [show List.dropWhile isWs (10 :: r) = r.dropWhile isWs from by
      simp [List.dropWhile, h10]]
    exact removeMarkersF_id fuel _ (hasMatch_dropWhile r hr)

theorem removeMarkers_markerLine (u r : QStr) (hu : u ≠ [])
    (hhex : ∀ x ∈ u, isHexDash x = true) (hr : hasMatch r = false) :
    removeMarkers (markerLine u ++ r) = r.dropWhile isWs := by
  apply removeMarkersF_markerLine _ u r hu hhex hr
  rcases u with _ | ⟨x, u'⟩
  · exact absurd rfl hu
  · rw [markerLine, markerLit_eq]
    simp

theorem splitNl_ne_nil : ∀ l : QStr, splitNl l ≠ []
  | [] => by simp [splitNl]
  | c :: r => by
    simp only [splitNl]
    split_ifs
    · simp
    · rcases h : splitNl r with _ | ⟨a, t⟩
      · simp [h]
      · simp [h]

theorem splitNl_first : ∀ (l : QStr) (h : QStr) (t : List QStr), splitNl l = h :: t →
    ∃ rest, l = h ++ rest
  | [], h, t, heq => by
    simp only [splitNl, List.cons.injEq] at heq
    exact ⟨[], by simp [← heq.1]⟩
  | c :: r, h, t, heq => by
    simp only [splitNl] at heq
    split_ifs at heq with hc
    · rw [List.cons.injEq] at heq
      exact ⟨c :: r, by simp [← heq.1]⟩
    · rcases hr : splitNl r with _ | ⟨a, t'⟩
      · exact absurd hr (splitNl_ne_nil r)
      · simp only [hr] at heq
        rw [List.cons.injEq] at heq
        obtain ⟨rest, hrest⟩ := splitNl_first r a t' hr
        exact ⟨rest, by simp [← heq.1, hrest]⟩

theorem noMatch_lines : ∀ l : QStr, hasMatch l = false →
    ∀ s ∈ splitNl l, findMarker s = none
  | [], _, s, hs => by
    simp only [splitNl, List.mem_singleton] at hs
    subst hs
    rfl
  | c :: r, h, s, hs => by
    obtain ⟨h1, h2⟩ := hasMatch_tail h
    simp only [splitNl] at hs
    split_ifs at hs with hc
    · rcases List.mem_cons.mp hs with rfl | hs'
      · rfl
      · exact noMatch_lines r h2 s hs'
    · rcases hr : splitNl r with _ | ⟨a, t⟩
      · exact absurd hr (splitNl_ne_nil r)
      · rw [hr] at hs
        rcases List.mem_cons.mp hs with rfl | hs'
        · have ha : findMarker a = none := noMatch_lines r h2 a (by simp [hr])
          have hmca : matchAt (c :: a) = false := by
            by_contra hm
            rw [Bool.not_eq_false] at hm
            obtain ⟨rest, hrest⟩ := splitNl_first r a t hr
            have : matchAt ((c :: a) ++ rest) = true := matchAt_extend _ _ hm
            rw [show (c :: a) ++ rest = c :: r from by simp [hrest]] at this
            rw [this] at h1
            exact absurd h1 (by simp)
          simp [findMarker, hmca, ha]
        · exact noMatch_lines r h2 s (by simp [hr, hs'])

theorem splitNl_append_noNl : ∀ (a : QStr) (w : QStr), (∀ x ∈ a, x ≠ 10) →
    splitNl (a ++ 10 :: w) = a :: splitNl w
  | [], w, _ => by simp [splitNl]
  | c :: a, w, h => by
    have hc : c ≠ 10 := h c (by simp)
    have ih := splitNl_append_noNl a w (fun x hx => h x (by simp [hx]))
    simp only [List.cons_append, splitNl, hc, if_false]
    simp only [List.append_eq] at ih ⊢
    rw [ih]

/-! ### Claim C5 -/

/-- C5 (counterexample): a record with a non-empty email but empty
hardware id and activation id is *not* treated as empty by the code:
`LicenseData::isEmpty` checks only the email field. -/
theorem isEmptyRec_counterexample :
    onlyEmailLic.email ≠ [] ∧ onlyEmailLic.mac = [] ∧ onlyEmailLic.uuid = [] ∧
      onlyEmailLic.isEmptyRec = false := by decide

/-- C5 (amended): a License Record is treated as empty if and only if
its email is unset; unset hardware or activation ids do not make the
record empty. -/
theorem isEmptyRec_iff_email (l : LicenseData) :
    l.isEmptyRec = true ↔ l.email = [] := by
  simp [LicenseData.isEmptyRec]

/-- Witness for `isEmptyRec_iff_email` at the default record. -/
theorem isEmptyRec_iff_email_witness : emptyLicense.isEmptyRec = true :=
  (isEmptyRec_iff_email emptyLicense).mpr (by decide)

/-! ### Claim C9 -/

/-- C9: for every interface state, `systemHasMacAddress` rejects the
empty target up front, even if some interface reports an empty hardware
address, so a record whose stored hardware id is empty can never pass
the hardware-match check. -/
theorem systemHasMacAddress_empty_false (st : SysState) :
    systemHasMacAddress st [] = false := by
  simp [systemHasMacAddress]

/-! ### Claim C10 -/

/-- C10: if fingerprint resolution yields no hardware id, `loadLicense`
returns the empty record (without reaching the decode step) and
`hasValidLicense` is false, whatever the blob and anchor files hold. -/
theorem noFingerprint_invalid (st : SysState) (h : getFirstMacAddress st = []) :
    (loadLicense st).isEmptyRec = true ∧ hasValidLicense st = false := by
  have hload : loadLicense st = emptyLicense := by
    unfold loadLicense
    rcases st.blobFile with _ | enc
    · rfl
    · simp only [h]
      split_ifs <;> rfl
  refine ⟨by rw [hload]; rfl, ?_⟩
  unfold hasValidLicense
  rw [hload]
  rfl

/-- Witness for `noFingerprint_invalid`: a machine whose interfaces
report only an empty address and a loopback address, with both files
present. -/
theorem noFingerprint_invalid_witness :
    (loadLicense noIfaceSt).isEmptyRec = true ∧ hasValidLicense noIfaceSt = false :=
  noFingerprint_invalid noIfaceSt (by decide)

/-! ### Claim C2 -/

theorem saveLicense_not_writable (st : SysState) (lic : LicenseData)
    (hbw : st.blobWritable = false) : saveLicense st lic = (false, st) := by
  unfold saveLicense
  split_ifs with h1 h2 h3
  · rfl
  · rfl
  · rw [hbw] at h3
    simp at h3
  · rfl

theorem saveLicense_true_writable (st : SysState) (lic : LicenseData)
    (h : (saveLicense st lic).1 = true) :
    st.blobWritable = true ∧ st.anchorWritable = true := by
  unfold saveLicense saveUuidToConfig at h
  split_ifs at h with h1 h2 h3 h4 h5 h6
  any_goals simp at h
  all_goals exact ⟨h3, by simpa using h5⟩

/-- C2: `activateNewLicense` returns true only if both the blob write
and the anchor write succeed, and a blob-write failure short-circuits
the operation before the anchor file is touched: the anchor file's
content is unchanged in that case. -/
theorem activateNewLicense_write_order (st : SysState) (email : QStr) :
    ((activateNewLicense st email).1 = true →
      st.blobWritable = true ∧ st.anchorWritable = true) ∧
    (st.blobWritable = false →
      (activateNewLicense st email).1 = false ∧
        (activateNewLicense st email).2.anchorFile = st.anchorFile) := by
  constructor
  · intro h
    unfold activateNewLicense at h
    split_ifs at h with h1 h2
    exact saveLicense_true_writable st _ h
  · intro hbw
    unfold activateNewLicense
    split_ifs with h1 h2
    all_goals first
      | (rw [saveLicense_not_writable st _ hbw]; simp)
      | simp

/-- Witness for `activateNewLicense_write_order`: on a state whose blob
file cannot be opened for writing, activation fails and the anchor file
keeps its previous content. -/
theorem activateNewLicense_write_order_witness :
    (activateNewLicense blobLockedSt (qstr "a@example.com")).1 = false ∧
      (activateNewLicense blobLockedSt (qstr "a@example.com")).2.anchorFile =
        blobLockedSt.anchorFile :=
  (activateNewLicense_write_order blobLockedSt (qstr "a@example.com")).2 (by decide)

/-! ### Claim C1 -/

theorem systemHasMacAddress_iff (st : SysState) (m : QStr) :
    systemHasMacAddress st m = true ↔
      (m ≠ [] ∧ ∃ i ∈ st.interfaces, i.hardwareAddress = m) := by
  unfold systemHasMacAddress
  split_ifs with h
  · simp [h]
  · simp [h, List.any_eq_true]

set_option maxRecDepth 100000 in
/-- C1 (counterexample): a state on which every predicate of the claim
holds — the blob decodes under the key derived from the current first
hardware id to a non-empty record, some interface's hardware address
equals the record's hardware id exactly (both are the empty string),
the anchor is present and equals the activation id, and the expiry is
strictly in the future — yet the validator answers false, because
`systemHasMacAddress` rejects an empty stored hardware id up front. -/
theorem hasValidLicense_claim_counterexample :
    hasValidLicense noMacSt = false ∧
      (loadLicense noMacSt).isEmptyRec = false ∧
      (∃ i ∈ noMacSt.interfaces, i.hardwareAddress = (loadLicense noMacSt).mac) ∧
      loadUuidFromConfig noMacSt ≠ [] ∧
      loadUuidFromConfig noMacSt = (loadLicense noMacSt).uuid ∧
      qdtLt noMacSt.now (loadLicense noMacSt).expires = true := by
  refine ⟨by decide, by decide, ⟨⟨[], false⟩, by decide, by decide⟩,
    by decide, by decide, by decide⟩

/-- C1 (amended): the validator returns true iff, in this order, the
blob decodes (under the key derived from the current machine's first
hardware id) to a non-empty record, the record's hardware id is
*non-empty* and equals some current interface's hardware address
exactly, the anchor read yields a non-empty value equal to the record's
activation id, and the expiry is strictly later than now.  The original
claim's hardware predicate omitted the non-emptiness requirement.  In a
pure reading the short-circuit order manifests as this conjunction. -/
theorem hasValidLicense_iff_checks (st : SysState) :
    hasValidLicense st = true ↔
      ((loadLicense st).isEmptyRec = false ∧
        ((loadLicense st).mac ≠ [] ∧
          ∃ i ∈ st.interfaces, i.hardwareAddress = (loadLicense st).mac) ∧
        (loadUuidFromConfig st ≠ [] ∧
          loadUuidFromConfig st = (loadLicense st).uuid) ∧
        qdtLt st.now (loadLicense st).expires = true) := by
  have hmac := systemHasMacAddress_iff st (loadLicense st).mac
  have hlt : qdtLt st.now (loadLicense st).expires =
      !isLicenseExpired st (loadLicense st).expires := rfl
  unfold hasValidLicense
  by_cases h1 : (loadLicense st).isEmptyRec = true
  · rw [if_pos h1]
    simp [h1]
  · rw [if_neg h1]
    by_cases h2 : systemHasMacAddress st (loadLicense st).mac = true
    · rw [if_neg (not_not_intro h2)]
      by_cases h3 : loadUuidFromConfig st = [] ∨
          loadUuidFromConfig st ≠ (loadLicense st).uuid
      · rw [if_pos h3]
        constructor
        · intro hf
          simp at hf
        · intro hr
          rcases h3 with hc | hc
          · exact absurd hc hr.2.2.1.1
          · exact absurd hr.2.2.1.2 hc
      · rw [if_neg h3]
        push_neg at h3
        by_cases h4 : isLicenseExpired st (loadLicense st).expires = true
        · rw [if_pos h4]
          constructor
          · intro hf
            simp at hf
          · intro hr
            have hq := hr.2.2.2
            rw [hlt, h4] at hq
            simp at hq
        · rw [if_neg h4]
          have h4f : isLicenseExpired st (loadLicense st).expires = false := by
            simpa using h4
          constructor
          · intro _
            refine ⟨by simpa using h1, hmac.mp h2, ⟨h3.1, h3.2⟩, ?_⟩
            rw [hlt, h4f]
            rfl
          · intro _
            rfl
    · rw [if_pos h2]
      constructor
      · intro hf
        simp at hf
      · intro hr
        exact absurd (hmac.mpr hr.2.1) h2

set_option maxRecDepth 100000 in
/-- Witness for `hasValidLicense_iff_checks`: an end-to-end consistent
state on which all four predicates hold and the validator answers true. -/
theorem hasValidLicense_iff_checks_witness : hasValidLicense goodSt = true := by
  apply (hasValidLicense_iff_checks goodSt).mpr
  refine ⟨by decide, ⟨by decide, ⟨macA, false⟩, by decide, by decide⟩, ⟨by decide, by decide⟩,
    by decide⟩

/-! ### Claim C6 -/

theorem findMarker_capture : ∀ (c g : QStr), findMarker c = some g →
    ∀ x ∈ g, isHexDash x = true
  | [], g, h => by simp [findMarker] at h
  | c :: r, g, h => by
    simp only [findMarker] at h
    split_ifs at h with hm
    · rw [Option.some.injEq] at h
      intro x hx
      rw [← h] at hx
      exact List.mem_takeWhile_imp hx
    · exact findMarker_capture r g h

/-- C6 (counterexample): an anchor file that exists and in which the
marker pattern matches with captured group `abc`, yet the read
operation returns the absent anchor instead of the captured group: the
code additionally requires the group to contain a dash and be exactly 36
characters long. -/
theorem loadUuidFromConfig_counterexample :
    shortIdSt.anchorFile = some (markerLit ++ qstr "abc" ++ [10]) ∧
      findMarker (markerLit ++ qstr "abc" ++ [10]) = some (qstr "abc") ∧
      loadUuidFromConfig shortIdSt = [] := by decide

/-- C6 (amended): when the anchor file exists and the marker pattern
matches, the read operation returns the first captured group (trimmed,
which is the identity here since the group has no whitespace) only if
the group contains a dash and is exactly 36 characters long; otherwise,
and when the file or a match is absent, the anchor is absent (empty). -/
theorem loadUuidFromConfig_spec (st : SysState) (c g : QStr)
    (hc : st.anchorFile = some c) (hg : findMarker c = some g) :
    ((45 : Nat) ∈ g ∧ g.length = 36 → loadUuidFromConfig st = g) ∧
    (¬((45 : Nat) ∈ g ∧ g.length = 36) → loadUuidFromConfig st = []) := by
  have htrim : trim g = g :=
    trim_eq_self_of_not_ws g (fun x hx => isHexDash_not_ws (findMarker_capture c g hg x hx))
  unfold loadUuidFromConfig
  rw [hc]
  simp only [hg, htrim]
  constructor
  · intro h
    rw [if_pos h]
  · intro h
    rw [if_neg h]

set_option maxRecDepth 100000 in
/-- Witness for `loadUuidFromConfig_spec`: an anchor whose captured
group is a canonical 36-character activation id is returned verbatim. -/
theorem loadUuidFromConfig_spec_witness :
    loadUuidFromConfig
        { interfaces := [], blobFile := none, anchorFile := some (markerLine uuidA)
          blobWritable := true, anchorWritable := true, now := none, freshUuid := [] } =
      uuidA :=
  (loadUuidFromConfig_spec _ (markerLine uuidA) uuidA rfl (by decide)).1 (by decide)

/-! ### Claim C7 -/

theorem matchAt_markerLine (v w : QStr) (hv : v ≠ [])
    (hx : ∀ x ∈ v, isHexDash x = true) : matchAt (markerLine v ++ w) = true := by
  rcases v with _ | ⟨x, v'⟩
  · exact absurd rfl hv
  · rw [markerLine, List.append_assoc, List.append_assoc]
    exact matchAt_markerLit_append _ (by simpa using hx x (by simp))

set_option maxRecDepth 100000 in
/-- C7 (counterexample): for a prior content whose marker line is
followed by a blank line, the write also removes the blank line (the
pattern's trailing `\s*` is greedy across line boundaries), so the
result differs from "all bytes preserved except the removal of the
prior marker line": the claim-predicted content keeps the blank line. -/
theorem saveUuidToConfig_counterexample :
    blankLineSt.anchorFile = some (markerLit ++ qstr "ab" ++ [10, 10] ++ qstr "rest") ∧
      (saveUuidToConfig blankLineSt uuidA).2.anchorFile =
        some (markerLine uuidA ++ qstr "rest") ∧
      markerLine uuidA ++ qstr "rest" ≠ markerLine uuidA ++ [10] ++ qstr "rest" := by
  decide

/-- C7 (amended): the anchor write prepends the fresh marker line (when
it is not already the prefix) to the prior content with every
left-to-right match of the marker pattern removed — each match spans the
marker text, its id characters, and the greedy run of whitespace after
them, which may sit mid-line and cross line boundaries.  In particular,
a prior content with no marker match is preserved byte-for-byte. -/
theorem saveUuidToConfig_frame (st : SysState) (u c : QStr)
    (hw : st.anchorWritable = true) (hc : st.anchorFile = some c)
    (hu : u ≠ []) (hhex : ∀ x ∈ u, isHexDash x = true) :
    (saveUuidToConfig st u).2.anchorFile =
      some (if leadsWith (markerLine u) (removeMarkers c) then removeMarkers c
            else markerLine u ++ removeMarkers c) ∧
    (hasMatch c = false →
      (saveUuidToConfig st u).2.anchorFile = some (markerLine u ++ c)) := by
  have hbase : (saveUuidToConfig st u).2.anchorFile =
      some (if leadsWith (markerLine u) (removeMarkers c) then removeMarkers c
            else markerLine u ++ removeMarkers c) := by
    unfold saveUuidToConfig
    rw [if_neg hu, if_neg (not_not_intro hw), hc]
    simp
  refine ⟨hbase, fun hnm => ?_⟩
  rw [hbase, removeMarkers_id c hnm,
    leadsWith_markerLine_of_noMatch u c hu hhex hnm]
  simp

set_option maxRecDepth 100000 in
/-- Witness for `saveUuidToConfig_frame`: a marker-free anchor content
is preserved byte-for-byte below the freshly prepended marker line. -/
theorem saveUuidToConfig_frame_witness :
    (saveUuidToConfig plainAnchorSt uuidA).2.anchorFile =
      some (markerLine uuidA ++ qstr "project(test)\nadd_subdirectory(x)\n") :=
  (saveUuidToConfig_frame plainAnchorSt uuidA (qstr "project(test)\nadd_subdirectory(x)\n")
    rfl rfl (by decide) (by decide)).2 (by decide)

/-! ### Claim C8 -/

set_option maxRecDepth 400000 in
/-- C8 (counterexample): a starting content in which removing a marker
match reassembles a new marker from the surrounding fragments; after two
successive anchor writes the file contains *two* marker lines, not one. -/
theorem saveUuid_twice_counterexample :
    (saveUuidToConfig (saveUuidToConfig fragmentSt uuidA).2 uuidB).2.anchorFile =
      some (markerLine uuidB ++ (markerLit ++ [99, 10])) ∧
      countMarkerLines (markerLine uuidB ++ (markerLit ++ [99, 10])) = 2 := by decide

/-- C8 (amended): provided the single removal pass over the starting
content leaves marker-free text (which holds for every content that
does not reassemble a marker from fragments, in particular for ordinary
file contents), two successive anchor writes with non-empty hex-dash
activation ids leave the anchor equal to the newest marker line followed
by the cleaned content, with exactly one marker line, whose captured id
is the most recent activation id. -/
theorem saveUuid_twice_single_marker (st : SysState) (c v1 v2 : QStr)
    (hw : st.anchorWritable = true) (hc : st.anchorFile = some c)
    (h1 : v1 ≠ []) (h1x : ∀ x ∈ v1, isHexDash x = true)
    (h2 : v2 ≠ []) (h2x : ∀ x ∈ v2, isHexDash x = true)
    (hres : hasMatch (removeMarkers c) = false) :
    (saveUuidToConfig (saveUuidToConfig st v1).2 v2).2.anchorFile =
      some (markerLine v2 ++ (removeMarkers c).dropWhile isWs) ∧
    countMarkerLines (markerLine v2 ++ (removeMarkers c).dropWhile isWs) = 1 ∧
    findMarker (markerLine v2 ++ (removeMarkers c).dropWhile isWs) = some v2 := by
  have hnm2 : hasMatch ((removeMarkers c).dropWhile isWs) = false :=
    hasMatch_dropWhile _ hres
  have hstep1 : (saveUuidToConfig st v1).2 =
      { st with anchorFile := some (markerLine v1 ++ removeMarkers c) } := by
    unfold saveUuidToConfig
    rw [if_neg h1, if_neg (not_not_intro hw), hc]
    simp [leadsWith_markerLine_of_noMatch v1 (removeMarkers c) h1 h1x hres]
  have hrm : removeMarkers (markerLine v1 ++ removeMarkers c) =
      (removeMarkers c).dropWhile isWs :=
    removeMarkers_markerLine v1 (removeMarkers c) h1 h1x hres
  have hstep2 : (saveUuidToConfig (saveUuidToConfig st v1).2 v2).2.anchorFile =
      some (markerLine v2 ++ (removeMarkers c).dropWhile isWs) := by
    rw [hstep1]
    unfold saveUuidToConfig
    rw [if_neg h2, if_neg (not_not_intro (show ({ st with
      anchorFile := some (markerLine v1 ++ removeMarkers c) } : SysState).anchorWritable = true
      from hw))]
    simp only [Option.getD_some, hrm]
    rw [leadsWith_markerLine_of_noMatch v2 _ h2 h2x hnm2]
    simp
  have hshape : markerLine v2 ++ (removeMarkers c).dropWhile isWs =
      (markerLit ++ v2) ++ 10 :: ((removeMarkers c).dropWhile isWs) := by
    rw [markerLine]
    simp
  have hnl : ∀ x ∈ markerLit ++ v2, x ≠ 10 := by
    intro x hx
    rcases List.mem_append.mp hx with hx | hx
    · exact (by decide : ∀ x ∈ markerLit, x ≠ 10) x hx
    · exact isHexDash_ne_nl (h2x x hx)
  have hmhead : matchAt (markerLit ++ v2) = true := by
    rcases v2 with _ | ⟨x, v2'⟩
    · exact absurd rfl h2
    · exact matchAt_markerLit_append _ (by simpa using h2x x (by simp))
  have hcount : countMarkerLines (markerLine v2 ++ (removeMarkers c).dropWhile isWs) = 1 := by
    rw [hshape, countMarkerLines, splitNl_append_noNl _ _ hnl]
    rw [List.filter_cons_of_pos (by rw [findMarker_of_matchAt _ hmhead]; simp)]
    have hrest : (splitNl ((removeMarkers c).dropWhile isWs)).filter
        (fun l => (findMarker l).isSome) = [] := by
      rw [List.filter_eq_nil_iff]
      intro s hs
      rw [noMatch_lines _ hnm2 s hs]
      simp
    rw [hrest]
    rfl
  have hfind : findMarker (markerLine v2 ++ (removeMarkers c).dropWhile isWs) = some v2 := by
    have hm : matchAt (markerLine v2 ++ (removeMarkers c).dropWhile isWs) = true :=
      matchAt_markerLine v2 _ h2 h2x
    rw [findMarker_of_matchAt _ hm]
    have hd : markerLine v2 ++ (removeMarkers c).dropWhile isWs =
        markerLit ++ (v2 ++ 10 :: ((removeMarkers c).dropWhile isWs)) := by
      rw [markerLine]
      simp
    rw [hd, drop16_markerLit_append,
      takeWhile_append_stop v2 10 _ h2x (by decide)]
  exact ⟨hstep2, hcount, hfind⟩

set_option maxRecDepth 100000 in
/-- Witness for `saveUuid_twice_single_marker`: writing two activation
ids in succession over an ordinary content leaves exactly one marker
line, carrying the second id. -/
theorem saveUuid_twice_single_marker_witness :
    (saveUuidToConfig (saveUuidToConfig plainAnchorSt uuidA).2 uuidB).2.anchorFile =
      some (markerLine uuidB ++
        (removeMarkers (qstr "project(test)\nadd_subdirectory(x)\n")).dropWhile isWs) ∧
    countMarkerLines (markerLine uuidB ++
      (removeMarkers (qstr "project(test)\nadd_subdirectory(x)\n")).dropWhile isWs) = 1 ∧
    findMarker (markerLine uuidB ++
      (removeMarkers (qstr "project(test)\nadd_subdirectory(x)\n")).dropWhile isWs) =
      some uuidB :=
  saveUuid_twice_single_marker plainAnchorSt
    (qstr "project(test)\nadd_subdirectory(x)\n") uuidA uuidB rfl rfl
    (by decide) (by decide) (by decide) (by decide) (by decide)
